import Mathlib

/-!
Shallow embedding of the heat-simulation core of `udkm1Dsim/heat.py`
(class `Heat`): excitation validation and merging, the Lambert-Beer
absorption profile, the delta-excitation temperature solver and the
temperature-map orchestration.  Physical quantities (already converted to
SI magnitudes by the source before any arithmetic) are modelled as exact
rationals; the numerical collaborators that are not part of the repository
(`scipy.optimize.brentq`, the heat-diffusion integrator, `numpy`'s float
`exp`) enter as explicit function parameters.
-/

namespace UDKM

/-- The optical excitation as stored in `Heat._excitation`:
parallel sequences of fluences [J/m²], pump delays [s] and pulse widths [s]. -/
structure Excitation where
  fluence : List ℚ
  delay_pump : List ℚ
  pulse_width : List ℚ
deriving DecidableEq, Repr

/-- `np.arange(start, stop, step)` (and `np.r_[start:stop:step]` with a real
step): the points `start + j*step` for `0 ≤ j < ⌈(stop-start)/step⌉`. -/
def arange (start stop step : ℚ) : List ℚ :=
  (List.range (⌈(stop - start) / step⌉).toNat).map fun j => start + (j : ℚ) * step

/-- `np.min` of a vector.  Every call site below passes a nonempty list;
the `0` default mirrors nothing meaningful (numpy raises on empty input). -/
def npMin : List ℚ → ℚ
  | [] => 0
  | x :: xs => xs.foldl min x

/-- The dict branch of the `excitation` property setter (`heat.py` lines
593-616): store the three magnitude sequences, reject unequal lengths,
reject duplicate pump delays (`len(delay_pump) != len(np.unique(delay_pump))`),
and finally replace `delay_pump` by `np.sort(delay_pump)`.  `np.sort` is
modelled as sorting by `≤`; `np.unique`'s length is the number of distinct
elements. -/
def setExcitationDict (fluence delay_pump pulse_width : List ℚ) :
    Except String Excitation :=
  if ¬(fluence.length = delay_pump.length ∧ delay_pump.length = pulse_width.length) then
    .error "Elements of excitation dict must have the same number of elements!"
  else if delay_pump.length ≠ delay_pump.dedup.length then
    .error "The excitations have to be unique in delays!"
  else
    .ok ⟨fluence, delay_pump.insertionSort (· ≤ ·), pulse_width⟩

/-- One pump event as the merge loop of `check_excitation` sees it:
`temp.append([delay_pump[k], pulse_width[k], fluence[k]])`. -/
structure Pump where
  delay : ℚ
  width : ℚ
  fluence : ℚ
deriving DecidableEq, Repr

instance : Inhabited Pump := ⟨⟨0, 0, 0⟩⟩

/-- Zip the three stored sequences into pump events (the merge loop indexes
all three at the same position `k`; the setter guarantees equal lengths). -/
def mkPumps : List ℚ → List ℚ → List ℚ → List Pump
  | d :: ds, w :: ws, f :: fs => ⟨d, w, f⟩ :: mkPumps ds ws fs
  | _, _, _ => []

/-- Window factor for finite pulse durations (`window = 1.5`). -/
def window : ℚ := 3 / 2

/-- Interpolation factor for finite pulse durations (`intp = 1000`). -/
def intp : ℚ := 1000

/-- The nested while loops of `check_excitation` (heat.py 236-256): `e` is the
event appended last, `acc` holds the earlier members of the current group in
reverse.  A following event is pulled into the group when
`delay_pump[k] + window*pulse_width[k] >= delay_pump[k+1] - window*pulse_width[k+1]`;
an event pulled in with zero pulse width raises the overlap error.  On a
non-overlap the group closes and scanning restarts at the next event. -/
def mergeLoop (e : Pump) (acc : List Pump) : List Pump → Except String (List (List Pump))
  | [] => .ok [(e :: acc).reverse]
  | e' :: rest =>
    if e.delay + window * e.width ≥ e'.delay - window * e'.width then
      if e'.width = 0 then
        .error "Overlapping pulse must have duration > 0!"
      else
        mergeLoop e' (e :: acc) rest
    else do
      let gs ← mergeLoop e' [] rest
      .ok ((e :: acc).reverse :: gs)

/-- Outer merge traversal: group the sorted pump events into maximal runs of
pairwise-overlapping pulses. -/
def mergeExcitations : List Pump → Except String (List (List Pump))
  | [] => .ok []
  | e :: rest => mergeLoop e [] rest

/-- One entry of the `check_excitation` result list: a time grid plus the pump
delays, pulse widths and fluences of the merged group (all three empty for a
quiet span). -/
structure Intervall where
  grid : List ℚ
  delays : List ℚ
  widths : List ℚ
  fluences : List ℚ
deriving DecidableEq, Repr

instance : Inhabited Intervall := ⟨⟨[], [], [], []⟩⟩

/-- The time grid of one merged group (heat.py 257-271):
`delta_delay = np.min(pulse_width[i:k+1])/intp`; a zero step degenerates to the
single point `delay_pump[i]`, otherwise
`np.r_[delay_pump[i]-window*pulse_width[i] : delay_pump[k]+window*pulse_width[k] : delta_delay]`. -/
def groupIntervall (g : List Pump) : Intervall :=
  let delta_delay := npMin (g.map Pump.width) / intp
  let grid :=
    if delta_delay = 0 then [(g.headD default).delay]
    else arange ((g.headD default).delay - window * (g.headD default).width)
                ((g.getLastD default).delay + window * (g.getLastD default).width)
                delta_delay
  ⟨grid, g.map Pump.delay, g.map Pump.width, g.map Pump.fluence⟩

/-- A quiet span: requested delays with empty pump metadata. -/
def quiet (ds : List ℚ) : Intervall := ⟨ds, [], [], []⟩

/-- Interleave quiet spans of requested delays between consecutive excitation
intervals and after the last one (heat.py 284-299); the boundaries are the last
grid point of the current interval and the first grid point of the next. -/
def interleaveQuiet (delays : List ℚ) : List Intervall → List Intervall
  | [] => []
  | [ex] =>
    let after := delays.filter fun t => t > ex.grid.getLastD 0
    if after ≠ [] then [ex, quiet after] else [ex]
  | ex :: ex2 :: rest =>
    let between := delays.filter fun t => t > ex.grid.getLastD 0 ∧ t < ex2.grid.headD 0
    if between ≠ [] then ex :: quiet between :: interleaveQuiet delays (ex2 :: rest)
    else ex :: interleaveQuiet delays (ex2 :: rest)

/-- `Heat.check_excitation` (heat.py 198-301) on the stored excitation and a
requested delay grid.  Without heat diffusion all pulse widths are treated as
zero (the local name is rebound to `np.zeros_like(fluence)`; a warning, not an
error).  Raises the overlap error through the merge; the leading quiet span is
prepended only when requested delays exist before the first group's grid
minimum (otherwise only a warning is emitted).  An empty pump list hits
`n_excitation[0]` and raises `IndexError` in the source. -/
def check_excitation_pure (heat_diffusion : Bool) (exc : Excitation) (delays : List ℚ) :
    Except String (List Intervall × List ℚ × List ℚ × List ℚ) :=
  let fluence := exc.fluence
  let delay_pump := exc.delay_pump
  let pulse_width :=
    if exc.pulse_width.sum > 0 ∧ ¬heat_diffusion
    then List.replicate fluence.length (0 : ℚ) else exc.pulse_width
  match mergeExcitations (mkPumps delay_pump pulse_width fluence) with
  | .error e => .error e
  | .ok groups =>
    match groups.map groupIntervall with
    | [] => .error "IndexError: list index out of range"
    | first :: tl =>
      let before := delays.filter fun t => t < npMin first.grid
      let res := (if before ≠ [] then [quiet before] else []) ++
                 interleaveQuiet delays (first :: tl)
      .ok (res, fluence, delay_pump, pulse_width)

/-- The slice of `Heat`'s state that `check_excitation` can see. -/
structure HeatState where
  heat_diffusion : Bool
  excitation : Excitation
deriving DecidableEq, Repr

/-- `Heat.check_excitation` as a state transformer.  The method body only
reads `self._excitation` — the locals `fluence`, `delay_pump`, `pulse_width`
are rebound (heat.py 216-219, 227) and never written back to the object — so
the post-state is the input state. -/
def check_excitation_method (s : HeatState) (delays : List ℚ) :
    Except String (List Intervall × List ℚ × List ℚ × List ℚ) × HeatState :=
  (check_excitation_pure s.heat_diffusion s.excitation delays, s)

/-- One layer of the sample as `get_absorption_profile` uses it: its thickness
and its optical penetration depth, `none` modelling `inf` (non-absorbing).
Modelled from the spec: the sample/layer provider (`get_distances_of_layers`,
`get_distances_of_interfaces`, `get_layer_handle`, `finderb`) is not under
`src/`; per the spec the stack is a list of layers between consecutive
interfaces, `finderb` resolving interface `i` to layer `i`. -/
structure Layer where
  thickness : ℚ
  opt_pen_depth : Option ℚ
deriving DecidableEq, Repr

/-- The numpy slice assignment `dalpha_dz[k:k+m] = vals` (with `m = len(vals)`). -/
def writeSeg (arr : List ℚ) (k : Nat) (vals : List ℚ) : List ℚ :=
  arr.take k ++ vals ++ arr.drop (k + vals.length)

/-- The interface loop of `get_absorption_profile` (heat.py 340-360): per layer
select the mesh points in `[interfaces[i], interfaces[i+1])` (upper bound
inclusive for the last layer), write
`I0/opt_pen_depth*np.exp(-(z-interfaces[i])/opt_pen_depth)` into the profile at
the running counter `k` when the depth is finite and carry
`I0 *= np.exp(-(interfaces[i+1]-interfaces[i])/opt_pen_depth)`; a
non-absorbing layer writes nothing, but `k` still advances by the number of its
mesh points.  `ex` stands for the float `np.exp`. -/
def absorb_go (ex : ℚ → ℚ) (mesh : List ℚ) :
    List Layer → ℚ → ℚ → Nat → List ℚ → List ℚ
  | [], _, _, _, arr => arr
  | [l], I0, iface, k, arr =>
    match l.opt_pen_depth with
    | none => absorb_go ex mesh [] I0 (iface + l.thickness)
        (k + (mesh.filter fun d => iface ≤ d ∧ d ≤ iface + l.thickness).length) arr
    | some ζ => absorb_go ex mesh [] (I0 * ex (-l.thickness / ζ)) (iface + l.thickness)
        (k + (mesh.filter fun d => iface ≤ d ∧ d ≤ iface + l.thickness).length)
        (writeSeg arr k
          ((mesh.filter fun d => iface ≤ d ∧ d ≤ iface + l.thickness).map
            fun d => I0 / ζ * ex (-(d - iface) / ζ)))
  | l :: l2 :: rest, I0, iface, k, arr =>
    match l.opt_pen_depth with
    | none => absorb_go ex mesh (l2 :: rest) I0 (iface + l.thickness)
        (k + (mesh.filter fun d => iface ≤ d ∧ d < iface + l.thickness).length) arr
    | some ζ => absorb_go ex mesh (l2 :: rest) (I0 * ex (-l.thickness / ζ))
        (iface + l.thickness)
        (k + (mesh.filter fun d => iface ≤ d ∧ d < iface + l.thickness).length)
        (writeSeg arr k
          ((mesh.filter fun d => iface ≤ d ∧ d < iface + l.thickness).map
            fun d => I0 / ζ * ex (-(d - iface) / ζ)))

/-- `Heat.get_absorption_profile` (heat.py 303-361): profile initialised to
zeros over the mesh, initial intensity `I0 = 1`, first interface at `0`. -/
def get_absorption_profile (ex : ℚ → ℚ) (layers : List Layer) (mesh : List ℚ) : List ℚ :=
  absorb_go ex mesh layers 1 0 0 (List.replicate mesh.length 0)

/-- The absorption profile as the spec words it (§4.3), for the refinement
comparison: walk the layers carrying `I0`; an absorbing layer of depth `ζ`
contributes `I0/ζ·exp(-(z-interface)/ζ)` at each of its mesh points and
multiplies `I0` by `exp(-thickness/ζ)`; a non-absorbing layer contributes
zeros and leaves `I0` unchanged; the per-layer blocks are concatenated in mesh
order. -/
def absorption_profile_spec (ex : ℚ → ℚ) (mesh : List ℚ) :
    List Layer → ℚ → ℚ → List ℚ
  | [], _, _ => []
  | [l], I0, iface =>
    match l.opt_pen_depth with
    | none => (mesh.filter fun d => iface ≤ d ∧ d ≤ iface + l.thickness).map
        fun _ => (0 : ℚ)
    | some ζ => (mesh.filter fun d => iface ≤ d ∧ d ≤ iface + l.thickness).map
        fun d => I0 / ζ * ex (-(d - iface) / ζ)
  | l :: l2 :: rest, I0, iface =>
    (match l.opt_pen_depth with
     | none => (mesh.filter fun d => iface ≤ d ∧ d < iface + l.thickness).map
         fun _ => (0 : ℚ)
     | some ζ => (mesh.filter fun d => iface ≤ d ∧ d < iface + l.thickness).map
         fun d => I0 / ζ * ex (-(d - iface) / ζ)) ++
    absorption_profile_spec ex mesh (l2 :: rest)
      (match l.opt_pen_depth with
       | none => I0
       | some ζ => I0 * ex (-l.thickness / ζ))
      (iface + l.thickness)

/-- The per-layer sample vectors `get_temperature_after_delta_excitation`
fetches from the structure (heat.py 400-403); `int_heat_capacities` holds, per
layer, the subsystem-0 cumulative heat capacity (the source applies
`int_heat_capacity[0]`). -/
structure SampleProps where
  dalpha_dz : List ℚ
  int_heat_capacities : List (ℚ → ℚ)
  thicknesses : List ℚ
  masses : List ℚ
  areas : List ℚ

/-- heat.py line 404: `E0 = np.array(fluence)*areas[1]`. -/
def E0_of (fluence : ℚ) (areas : List ℚ) : ℚ := fluence * areas.getD 1 0

/-- The layer loop of `get_temperature_after_delta_excitation` (heat.py
409-419): where the absorption derivative is positive, replace the layer's
temperature by the bracketed root of
`masses[i]*(C(T2) - C(T1)) - dalpha_dz[i]*E0*thicknesses[i]` on
`[init_temp[i], 1e5]`; other layers keep their initial temperature.  `brentq`
stands for `scipy.optimize.brentq` (modelled from the spec: bracketed
root-finding, external to the repository).  Each iteration writes only index
`i` and reads only index `i` of the temperature array, so the loop is a map
over the zipped per-layer vectors. -/
def delta_loop (brentq : (ℚ → ℚ) → ℚ → ℚ → ℚ) (E0 : ℚ) :
    List (ℚ → ℚ) → List ℚ → List ℚ → List ℚ → List ℚ → List ℚ
  | chc :: chcs, da :: das, th :: ths, m :: ms, T1 :: Ts =>
    (if da > 0 then
      brentq (fun T2 => m * (chc T2 - chc T1) - da * E0 * th) T1 100000
    else T1) :: delta_loop brentq E0 chcs das ths ms Ts
  | _, _, _, _, Ts => Ts

/-- `Heat.get_temperature_after_delta_excitation` (heat.py 363-423).
`final_temp = init_temp` in the source binds the same ndarray object, so the
in-place writes `final_temp[i] = brentq(...)` update `init_temp` as well;
`delta_T = final_temp - init_temp` on line 420 therefore subtracts the updated
array from itself. -/
def get_temperature_after_delta_excitation (brentq : (ℚ → ℚ) → ℚ → ℚ → ℚ)
    (sp : SampleProps) (fluence : ℚ) (init_temp : List ℚ) : List ℚ × List ℚ :=
  let final_temp := delta_loop brentq (E0_of fluence sp.areas)
    sp.int_heat_capacities sp.dalpha_dz sp.thicknesses sp.masses init_temp
  (final_temp, final_temp.zipWith (· - ·) final_temp)

/-- Everything `calc_temp_map` needs: the `Heat` flags and excitation, the
sample vectors, and the external numerical collaborators.
`calc_heat_diffusion` (modelled from the spec: the diffusion integrator is not
under `src/`; it takes the initial field, the time grid and the pump metadata
and returns one temperature field per time-grid point). -/
structure CalcEnv where
  heat_diffusion : Bool
  excitation : Excitation
  sp : SampleProps
  brentq : (ℚ → ℚ) → ℚ → ℚ → ℚ
  calc_heat_diffusion : List ℚ → List ℚ → List ℚ → List ℚ → List ℚ → List (List ℚ)

/-- The Python slice `l[start : -cutEnd]` (for `cutEnd ≥ 1`), as used in
`temp = temp[start:-1-stop, :, :]` (heat.py 514). -/
def pySliceTrim (l : List (List ℚ)) (start cutEnd : Nat) : List (List ℚ) :=
  (l.take (l.length - cutEnd)).drop start

/-- `np.diff(temp_map, axis=0)`: first difference along the frame axis. -/
def npDiff0 : List (List ℚ) → List (List ℚ)
  | a :: b :: rest => b.zipWith (· - ·) a :: npDiff0 (b :: rest)
  | _ => []

/-- heat.py line 478: `np.sum(np.sum(np.abs(np.diff(temp_map[-1,:,:], 0, 1))))`.
The second positional argument of `np.diff` is `n = 0` — the array is
differenced zero times — so this is the sum of the absolute temperatures of the
last stored frame, not of its spatial differences. -/
def temp_gradient_of (field : List ℚ) : ℚ := (field.map (fun x => |x|)).sum

/-- The loop state of `calc_temp_map`: the initial temperature carried into
the next interval and the accumulated temperature map (seed frame included). -/
structure OrchState where
  init_temp : List ℚ
  temp_map : List (List ℚ)

/-- The branch body of the `calc_temp_map` loop for one interval (heat.py
478-527), returning the frames computed for the interval and
`special_init_temp` (`[]` when unset).  `prevLast` is
`checked_excitation[i-1][0][-1]` when a previous interval exists, `nx` the
following interval when one exists.

* Diffusive: heat diffusion on, more than 2 grid points, and either no fluence
  with a nonzero "gradient" or fluence with nonzero pulse width.  The grid is
  extended by the previous interval's last time point and, when the next
  interval is a delta excitation, by its first time point; the integrator's
  result is then sliced `temp[start:-1-stop]`.
* Delta: fluence present and (no heat diffusion, or zero pulse width).  The
  solved temperatures are reshaped to a single frame and then replaced by
  `np.zeros_like(temp)`.  The source passes the group's fluence list; every
  group reaching this branch carries a single pulse (merging requires nonzero
  widths of the pulses pulled in, and zero-width groups are singletons), and
  numpy broadcasting makes the one-element list act as its element, so its
  head is passed here.
* Otherwise: repeat the carried initial temperature over the grid. -/
def calc_interval_temp (env : CalcEnv) (prevLast : Option ℚ) (nx : Option Intervall)
    (iv : Intervall) (st : OrchState) : List (List ℚ) × List ℚ :=
  if env.heat_diffusion ∧ iv.grid.length > 2 ∧
      ((iv.fluences.sum = 0 ∧ temp_gradient_of (st.temp_map.getLastD []) ≠ 0) ∨
       (iv.fluences.sum > 0 ∧ iv.widths.sum > 0)) then
    let start : Nat := match prevLast with | some _ => 1 | none => 0
    let sub1 := match prevLast with | some t => t :: iv.grid | none => iv.grid
    let stopSub : Nat × List ℚ :=
      match nx with
      | some n =>
        if n.fluences.sum > 0 ∧ n.widths.sum = 0 then (1, sub1 ++ [n.grid.headD 0])
        else (0, sub1)
      | none => (0, sub1)
    let temp_full := env.calc_heat_diffusion st.init_temp stopSub.2 iv.delays iv.widths iv.fluences
    let special := if stopSub.1 = 1 then temp_full.getLastD [] else []
    (pySliceTrim temp_full start (1 + stopSub.1), special)
  else if iv.fluences.sum > 0 ∧
      (¬env.heat_diffusion ∨ (env.heat_diffusion ∧ iv.widths.sum = 0)) then
    let t := (get_temperature_after_delta_excitation env.brentq env.sp
      (iv.fluences.headD 0) st.init_temp).1
    ([t.map fun _ => (0 : ℚ)], [])
  else
    (List.replicate iv.grid.length st.init_temp, [])

/-- The interval loop of `calc_temp_map` (heat.py 468-546).  The line
`temp_map = np.concatenate((temp_map, temp))` is commented out in the source
(line 530), so the computed frames are dropped and the map keeps only its seed
frame; the next interval's initial temperature is `special_init_temp` when set
and otherwise the last frame of the (never-growing) map. -/
def calc_loop (env : CalcEnv) (prevLast : Option ℚ) (st : OrchState) :
    List Intervall → OrchState
  | [] => st
  | iv :: rest =>
    let ts := calc_interval_temp env prevLast rest.head? iv st
    let init' := if ts.2.length > 0 then ts.2 else st.temp_map.getLastD []
    calc_loop env (some (iv.grid.getLastD 0)) ⟨init', st.temp_map⟩ rest

/-- `Heat.calc_temp_map` (heat.py 447-568): check the excitation, seed the map
with the initial temperature, run the interval loop, then take the first
difference and drop the seed frame. -/
def calc_temp_map (env : CalcEnv) (delays : List ℚ) (init_temp0 : List ℚ) :
    Except String (List (List ℚ) × List (List ℚ) × List Intervall) := do
  let checked ← check_excitation_pure env.heat_diffusion env.excitation delays
  let stF := calc_loop env none ⟨init_temp0, [init_temp0]⟩ checked.1
  .ok (stF.temp_map.drop 1, npDiff0 stF.temp_map, checked.1)

/-- C5 (counterexample).  The claim says a successful set co-sorts all three
sequences by the permutation that sorts the delays.  For delays `[1, 0]` that
permutation swaps the two positions, so the stored fluences would have to be
`[20, 10]` and the widths `[4, 3]`; the setter succeeds but stores the
fluences and widths unreordered — only the delays are sorted. -/
theorem excitation_setter_not_cosorted :
    setExcitationDict [10, 20] [1, 0] [3, 4] = .ok ⟨[10, 20], [0, 1], [3, 4]⟩ ∧
    ¬(([10, 20] : List ℚ) = [20, 10] ∧ ([3, 4] : List ℚ) = [4, 3]) := by
  constructor
  · simp [setExcitationDict, List.insertionSort, List.orderedInsert]
  · norm_num

/-- C5 (amended).  After a successful set through the dictionary branch the
stored delays are a sorted (ascending) permutation of the given delays, while
the stored fluence and pulse-width sequences are exactly the given ones, in
their original order — they are not co-sorted with the delays. -/
theorem excitation_setter_sorts_only_delays (f d w : List ℚ) (e : Excitation)
    (h : setExcitationDict f d w = .ok e) :
    e.fluence = f ∧ e.pulse_width = w ∧
    e.delay_pump.Perm d ∧ e.delay_pump.Sorted (· ≤ ·) := by
  unfold setExcitationDict at h
  split at h
  · exact absurd h (by simp)
  · split at h
    · exact absurd h (by simp)
    · injection h with h
      subst h
      exact ⟨rfl, rfl, List.perm_insertionSort _ d, List.sorted_insertionSort _ d⟩

/-- Witness for C5's amended theorem at the concrete input of the
counterexample. -/
theorem excitation_setter_sorts_only_delays_witness :
    (⟨[10, 20], [0, 1], [3, 4]⟩ : Excitation).fluence = [10, 20] ∧
    (⟨[10, 20], [0, 1], [3, 4]⟩ : Excitation).pulse_width = [3, 4] ∧
    (⟨[10, 20], [0, 1], [3, 4]⟩ : Excitation).delay_pump.Perm [1, 0] ∧
    (⟨[10, 20], [0, 1], [3, 4]⟩ : Excitation).delay_pump.Sorted (· ≤ ·) :=
  excitation_setter_sorts_only_delays [10, 20] [1, 0] [3, 4] _
    (by simp [setExcitationDict, List.insertionSort, List.orderedInsert])


lemma map_getLastD (f : Pump → ℚ) (p : Pump) (g : List Pump) :
    ((p :: g).map f).getLastD 0 = f ((p :: g).getLastD default) := by
  rw [List.map_cons, List.getLastD_cons, List.getLastD_cons, List.getLastD_map]

lemma mem_interleaveQuiet {delays : List ℚ} {exs : List Intervall} {iv : Intervall}
    (h : iv ∈ interleaveQuiet delays exs) :
    iv ∈ exs ∨ (iv.delays = [] ∧ iv.widths = [] ∧ iv.fluences = []) := by
  induction exs with
  | nil => simp [interleaveQuiet] at h
  | cons ex tl ih =>
    cases tl with
    | nil =>
      simp only [interleaveQuiet] at h
      split at h
      · simp only [List.mem_cons, List.mem_singleton, List.not_mem_nil, or_false] at h
        rcases h with h | h
        · exact Or.inl (by simp [h])
        · subst h; exact Or.inr ⟨rfl, rfl, rfl⟩
      · simp only [List.mem_singleton] at h
        exact Or.inl (by simp [h])
    | cons ex2 rest =>
      simp only [interleaveQuiet] at h
      split at h
      · simp only [List.mem_cons] at h
        rcases h with h | h | h
        · exact Or.inl (by simp [h])
        · subst h; exact Or.inr ⟨rfl, rfl, rfl⟩
        · rcases ih h with h2 | h2
          · exact Or.inl (List.mem_cons_of_mem _ h2)
          · exact Or.inr h2
      · simp only [List.mem_cons] at h
        rcases h with h | h
        · exact Or.inl (by simp [h])
        · rcases ih h with h2 | h2
          · exact Or.inl (List.mem_cons_of_mem _ h2)
          · exact Or.inr h2

/-- Decompose membership in a `check_excitation` result: an interval is either
quiet (empty pump metadata) or the interval of one of the merged groups. -/
lemma check_excitation_mem {hd : Bool} {exc : Excitation} {delays : List ℚ}
    {res : List Intervall × List ℚ × List ℚ × List ℚ}
    (h : check_excitation_pure hd exc delays = .ok res)
    {iv : Intervall} (hm : iv ∈ res.1) :
    (iv.delays = [] ∧ iv.widths = [] ∧ iv.fluences = []) ∨
    ∃ gs g, mergeExcitations (mkPumps exc.delay_pump
        (if exc.pulse_width.sum > 0 ∧ ¬hd then List.replicate exc.fluence.length 0
         else exc.pulse_width) exc.fluence) = .ok gs ∧
      g ∈ gs ∧ iv = groupIntervall g := by
  simp only [check_excitation_pure] at h
  split at h
  · exact absurd h (by simp)
  · rename_i groups heq
    split at h
    · exact absurd h (by simp)
    · rename_i first tl heq2
      injection h with h
      subst h
      simp only at hm
      rcases List.mem_append.mp hm with hq | hq
      · left
        split at hq
        · simp only [List.mem_singleton] at hq
          subst hq
          exact ⟨rfl, rfl, rfl⟩
        · simp at hq
      · rcases mem_interleaveQuiet hq with hmem | hq2
        · rw [← heq2] at hmem
          rcases List.mem_map.mp hmem with ⟨g, hg, hgi⟩
          exact Or.inr ⟨groups, g, heq, hg, hgi.symm⟩
        · exact Or.inl hq2


lemma tail_append_singleton (l : List Pump) (a : Pump) (hl : l ≠ []) :
    (l ++ [a]).tail = l.tail ++ [a] := by
  cases l with
  | nil => exact absurd rfl hl
  | cons x xs => simp

/-- Invariant of the inner merge loop: if every pulse after the first in the
group built so far has nonzero width, the same holds for every finished group
(a pulse pulled into a group with zero width raises the error instead). -/
lemma mergeLoop_tail_width : ∀ (rest : List Pump) (e : Pump) (acc : List Pump)
    (gs : List (List Pump)), mergeLoop e acc rest = .ok gs →
    (∀ x ∈ (acc.reverse ++ [e]).tail, x.width ≠ 0) →
    ∀ g ∈ gs, ∀ x ∈ g.tail, x.width ≠ 0 := by
  intro rest
  induction rest with
  | nil =>
    intro e acc gs h hacc g hg x hx
    simp only [mergeLoop] at h
    injection h with h
    subst h
    simp only [List.mem_singleton] at hg
    subst hg
    rw [List.reverse_cons] at hx
    exact hacc x hx
  | cons e' rest ih =>
    intro e acc gs h hacc g hg x hx
    simp only [mergeLoop] at h
    split at h
    · split at h
      · exact absurd h (by simp)
      · rename_i hw'
        refine ih e' (e :: acc) gs h ?_ g hg x hx
        intro y hy
        rw [List.reverse_cons, tail_append_singleton _ _ (by simp)] at hy
        rcases List.mem_append.mp hy with hy | hy
        · exact hacc y hy
        · simp only [List.mem_singleton] at hy
          subst hy
          exact hw'
    · cases hml : mergeLoop e' [] rest with
      | error s => rw [hml] at h; exact absurd h (by simp [Bind.bind, Except.bind])
      | ok gs' =>
        rw [hml] at h
        simp only [Bind.bind, Except.bind] at h
        injection h with h
        subst h
        rcases List.mem_cons.mp hg with hg | hg
        · subst hg
          rw [List.reverse_cons] at hx
          exact hacc x hx
        · exact ih e' [] gs' hml (by simp) g hg x hx

/-- C6 (counterexample).  With heat diffusion enabled, pulses at delays
`0 s` and `1 s` with widths `0 s` and `2 s` overlap
(`0 + 1.5·0 ≥ 1 − 1.5·2`), so they are merged into one group of two pulses of
which the first has zero width — yet `check_excitation` succeeds instead of
raising the overlap error: the zero-width check is applied only to the pulse
being appended, never to the group's first pulse. -/
theorem check_excitation_zero_width_in_group_succeeds :
    check_excitation_pure true ⟨[1, 1], [0, 1], [0, 2]⟩ [-1, 5] =
      .ok ([⟨[-1], [], [], []⟩, ⟨[0], [0, 1], [0, 2], [1, 1]⟩, ⟨[5], [], [], []⟩],
           [1, 1], [0, 1], [0, 2]) ∧
    (0 : ℚ) ∈ [(0 : ℚ), 2] ∧ 2 ≤ ([(0 : ℚ), 1]).length := by
  refine ⟨?_, by norm_num, by norm_num⟩
  norm_num [check_excitation_pure, mkPumps, mergeExcitations, mergeLoop, window,
    groupIntervall, npMin, intp, quiet, interleaveQuiet]

/-- C6 (amended).  Whenever `check_excitation` succeeds, every pulse of a
merged group other than the group's first has nonzero pulse width: the
overlap error is raised exactly when a pulse *appended* to a group has zero
width, while a zero-width first pulse of a group is allowed. -/
theorem check_excitation_appended_pulse_width_nonzero (hd : Bool)
    (exc : Excitation) (delays : List ℚ)
    (res : List Intervall × List ℚ × List ℚ × List ℚ)
    (h : check_excitation_pure hd exc delays = .ok res) :
    ∀ iv ∈ res.1, ∀ w ∈ iv.widths.tail, w ≠ 0 := by
  intro iv hm w hw
  rcases check_excitation_mem h hm with ⟨_, hwid, _⟩ | ⟨gs, g, hmerge, hg, rfl⟩
  · rw [hwid] at hw
    simp at hw
  · have hwidths : (groupIntervall g).widths = g.map Pump.width := rfl
    rw [hwidths, ← List.map_tail] at hw
    rcases List.mem_map.mp hw with ⟨x, hx, rfl⟩
    cases hev : mkPumps exc.delay_pump
        (if exc.pulse_width.sum > 0 ∧ ¬hd then List.replicate exc.fluence.length 0
         else exc.pulse_width) exc.fluence with
    | nil =>
      rw [hev] at hmerge
      simp only [mergeExcitations] at hmerge
      injection hmerge with hmerge
      subst hmerge
      simp at hg
    | cons e evrest =>
      rw [hev] at hmerge
      simp only [mergeExcitations] at hmerge
      exact mergeLoop_tail_width evrest e [] gs hmerge (by simp) g hg x hx

/-- Witness for C6's amended theorem at the counterexample input: the second
pulse of the merged group has width `2 ≠ 0`. -/
theorem check_excitation_appended_pulse_width_nonzero_witness : (2 : ℚ) ≠ 0 :=
  check_excitation_appended_pulse_width_nonzero true ⟨[1, 1], [0, 1], [0, 2]⟩ [-1, 5]
    ([⟨[-1], [], [], []⟩, ⟨[0], [0, 1], [0, 2], [1, 1]⟩, ⟨[5], [], [], []⟩],
     [1, 1], [0, 1], [0, 2])
    (by norm_num [check_excitation_pure, mkPumps, mergeExcitations, mergeLoop, window,
      groupIntervall, npMin, intp, quiet, interleaveQuiet])
    ⟨[0], [0, 1], [0, 2], [1, 1]⟩ (by simp) 2 (by simp)

/-- Per-group grid formula, stated on the group's own delay/width sequences. -/
lemma groupIntervall_grid (g : List Pump) (hg : g ≠ []) :
    (groupIntervall g).grid =
      if npMin (groupIntervall g).widths = 0 then [(groupIntervall g).delays.headD 0]
      else arange ((groupIntervall g).delays.headD 0 - window * (groupIntervall g).widths.headD 0)
                  ((groupIntervall g).delays.getLastD 0 + window * (groupIntervall g).widths.getLastD 0)
                  (npMin (groupIntervall g).widths / intp) := by
  obtain ⟨p, g', rfl⟩ : ∃ p g', g = p :: g' := by
    cases g with
    | nil => exact absurd rfl hg
    | cons p g' => exact ⟨p, g', rfl⟩
  have hwidths : (groupIntervall (p :: g')).widths = (p :: g').map Pump.width := rfl
  have hdelays : (groupIntervall (p :: g')).delays = (p :: g').map Pump.delay := rfl
  have hzero : (npMin ((p :: g').map Pump.width) / intp = 0) ↔
      (npMin ((p :: g').map Pump.width) = 0) := by
    rw [div_eq_zero_iff]
    simp [intp]
  have hhead : ((p :: g').map Pump.delay).headD 0 = ((p :: g').headD default).delay := rfl
  have hheadw : ((p :: g').map Pump.width).headD 0 = ((p :: g').headD default).width := rfl
  simp only [groupIntervall, hwidths, hdelays, hzero, hhead, hheadw,
    map_getLastD Pump.delay p g', map_getLastD Pump.width p g']

/-- C7 (confirmed).  Every excited interval in a successful
`check_excitation` result carries the time grid built from its own pump
sequence `i..k`: the arithmetic progression (`np.arange` semantics, half-open
at the stop value) from `delay[i] - 1.5*width[i]` to `delay[k] + 1.5*width[k]`
with step `min(width[i..k])/1000`, degenerating to the single point
`delay[i]` when the minimum width is zero. -/
theorem check_excitation_grid_formula (hd : Bool) (exc : Excitation)
    (delays : List ℚ) (res : List Intervall × List ℚ × List ℚ × List ℚ)
    (h : check_excitation_pure hd exc delays = .ok res)
    (iv : Intervall) (hm : iv ∈ res.1) (hne : iv.delays ≠ []) :
    iv.grid =
      if npMin iv.widths = 0 then [iv.delays.headD 0]
      else arange (iv.delays.headD 0 - window * iv.widths.headD 0)
                  (iv.delays.getLastD 0 + window * iv.widths.getLastD 0)
                  (npMin iv.widths / intp) := by
  rcases check_excitation_mem h hm with ⟨hd0, _, _⟩ | ⟨gs, g, _, _, rfl⟩
  · exact absurd hd0 hne
  · have hg : g ≠ [] := by
      intro hgnil
      subst hgnil
      exact hne rfl
    exact groupIntervall_grid g hg

/-- Witness for C7 at a single delta pulse (fluence 1 at delay 0, width 0):
the excited interval's grid is the single point `0`. -/
theorem check_excitation_grid_formula_witness :
    (⟨[0], [0], [0], [1]⟩ : Intervall).grid =
      if npMin (⟨[0], [0], [0], [1]⟩ : Intervall).widths = 0 then
        [(⟨[0], [0], [0], [1]⟩ : Intervall).delays.headD 0]
      else arange ((⟨[0], [0], [0], [1]⟩ : Intervall).delays.headD 0 -
                    window * (⟨[0], [0], [0], [1]⟩ : Intervall).widths.headD 0)
                  ((⟨[0], [0], [0], [1]⟩ : Intervall).delays.getLastD 0 +
                    window * (⟨[0], [0], [0], [1]⟩ : Intervall).widths.getLastD 0)
                  (npMin (⟨[0], [0], [0], [1]⟩ : Intervall).widths / intp) :=
  check_excitation_grid_formula false ⟨[1], [0], [0]⟩ [-1, 1]
    ([⟨[-1], [], [], []⟩, ⟨[0], [0], [0], [1]⟩, ⟨[1], [], [], []⟩], [1], [0], [0])
    (by norm_num [check_excitation_pure, mkPumps, mergeExcitations, mergeLoop, window,
      groupIntervall, npMin, intp, quiet, interleaveQuiet])
    ⟨[0], [0], [0], [1]⟩ (by simp) (by simp)

/-- C10 (confirmed).  `check_excitation` never mutates the stored excitation:
the post-state of the method equals its pre-state even in the case where heat
diffusion is disabled and the stored pulse widths are nonzero — there the
*returned* pulse-width sequence is the zeroed local rebinding
(`np.zeros_like(fluence)`), while the stored sequences are untouched. -/
theorem check_excitation_method_preserves_state (s : HeatState) (delays : List ℚ)
    (r : List Intervall × List ℚ × List ℚ × List ℚ)
    (hhd : s.heat_diffusion = false) (hw : s.excitation.pulse_width.sum > 0)
    (hr : (check_excitation_method s delays).1 = .ok r) :
    (check_excitation_method s delays).2 = s ∧
    r.2.1 = s.excitation.fluence ∧ r.2.2.1 = s.excitation.delay_pump ∧
    r.2.2.2 = List.replicate s.excitation.fluence.length 0 := by
  refine ⟨rfl, ?_⟩
  simp only [check_excitation_method, check_excitation_pure, hhd] at hr
  rw [if_pos (by simpa using hw)] at hr
  split at hr
  · exact absurd hr (by simp)
  · split at hr
    · exact absurd hr (by simp)
    · injection hr with hr
      subst hr
      exact ⟨rfl, rfl, rfl⟩

/-- Witness for C10 with stored excitation fluence `[1]`, delay `[0]`, pulse
width `[2]`, diffusion disabled: the state is preserved and the returned
widths are zeroed. -/
theorem check_excitation_method_preserves_state_witness :
    (check_excitation_method ⟨false, ⟨[1], [0], [2]⟩⟩ [-1, 1]).2 =
      (⟨false, ⟨[1], [0], [2]⟩⟩ : HeatState) ∧
    ([1] : List ℚ) = (⟨false, ⟨[1], [0], [2]⟩⟩ : HeatState).excitation.fluence ∧
    ([0] : List ℚ) = (⟨false, ⟨[1], [0], [2]⟩⟩ : HeatState).excitation.delay_pump ∧
    ([0] : List ℚ) =
      List.replicate (⟨false, ⟨[1], [0], [2]⟩⟩ : HeatState).excitation.fluence.length 0 :=
  check_excitation_method_preserves_state ⟨false, ⟨[1], [0], [2]⟩⟩ [-1, 1]
    ([⟨[-1], [], [], []⟩, ⟨[0], [0], [0], [1]⟩, ⟨[1], [], [], []⟩], [1], [0], [0])
    rfl (by norm_num)
    (by norm_num [check_excitation_method, check_excitation_pure, mkPumps,
      mergeExcitations, mergeLoop, window, groupIntervall, npMin, intp, quiet,
      interleaveQuiet])


/-- C2 (code-bug evaluation).  Two layers, absorption only in the first,
`C(T) = T`, unit masses/thicknesses/areas, fluence `100`, initial temperature
`300` everywhere; the unique root of the layer-0 equation
`1*(T2-300) - 1*100*1 = 0` is `400`, and `brentq` is instantiated to return
it.  The function returns `final_temp = [400, 300]` — layer 0 heated, the
zero-absorption layer 1 unchanged — but `delta_T = [0, 0]`, because
`final_temp = init_temp` aliases the array and the in-place update makes
`final_temp - init_temp` a self-subtraction.  The documented temperature
change is `[100, 0] ≠ [0, 0]`. -/
theorem delta_excitation_delta_T_aliased :
    get_temperature_after_delta_excitation (fun _ _ _ => 400)
      ⟨[1, 0], [fun T => T, fun T => T], [1, 1], [1, 1], [1, 1]⟩ 100 [300, 300] =
      ([400, 300], [0, 0]) ∧
    (1 : ℚ) * (400 - 300) - 1 * (E0_of 100 [1, 1]) * 1 = 0 ∧
    List.zipWith (· - ·) [400, 300] [(300 : ℚ), 300] = [100, 0] ∧
    ([0, 0] : List ℚ) ≠ [100, 0] := by
  refine ⟨?_, by norm_num [E0_of], by norm_num, by norm_num⟩
  norm_num [get_temperature_after_delta_excitation, delta_loop, E0_of]

/-- Index-wise characterisation of the layer loop of
`get_temperature_after_delta_excitation`. -/
lemma delta_loop_getD (brentq : (ℚ → ℚ) → ℚ → ℚ → ℚ) (E0 : ℚ) :
    ∀ (chcs : List (ℚ → ℚ)) (das ths ms Ts : List ℚ) (i : Nat),
    chcs.length = Ts.length → das.length = Ts.length →
    ths.length = Ts.length → ms.length = Ts.length → i < Ts.length →
    (delta_loop brentq E0 chcs das ths ms Ts).getD i 0 =
      if das.getD i 0 > 0 then
        brentq (fun T2 => ms.getD i 0 *
            ((chcs.getD i id) T2 - (chcs.getD i id) (Ts.getD i 0)) -
          das.getD i 0 * E0 * ths.getD i 0) (Ts.getD i 0) 100000
      else Ts.getD i 0 := by
  intro chcs das ths ms Ts
  induction Ts generalizing chcs das ths ms with
  | nil => intro i _ _ _ _ hi; exact absurd hi (by simp)
  | cons T Ts ih =>
    intro i h1 h2 h3 h4 hi
    cases chcs with
    | nil => exact absurd h1 (by simp)
    | cons chc chcs =>
      cases das with
      | nil => exact absurd h2 (by simp)
      | cons da das =>
        cases ths with
        | nil => exact absurd h3 (by simp)
        | cons th ths =>
          cases ms with
          | nil => exact absurd h4 (by simp)
          | cons m ms =>
            cases i with
            | zero => simp [delta_loop]
            | succ i =>
              simp only [delta_loop, List.getD_cons_succ]
              exact ih chcs das ths ms i (by simpa using h1) (by simpa using h2)
                (by simpa using h3) (by simpa using h4) (by simpa using hi)

/-- C3 (counterexample).  Two layers with areas `[1, 2]` (first layer area 1,
second layer area 2), unit absorption/thickness/mass, `C(T) = T`, initial
temperature `0`, fluence `3`; `brentq` is instantiated as `fun f _ _ => f 0`,
which exposes the constant term of the solved equation.  Every layer returns
`-6 = -(3·2)`: the deposited energy is `fluence * areas[1] = 6`, the *second*
layer's area, not `fluence * areas[0] = 3` as the claim states. -/
theorem delta_excitation_uses_second_layer_area :
    (get_temperature_after_delta_excitation (fun f _ _ => f 0)
      ⟨[1, 1], [fun T => T, fun T => T], [1, 1], [1, 1], [1, 2]⟩ 3 [0, 0]).1 =
      [-6, -6] ∧
    E0_of 3 [1, 2] = 3 * 2 ∧ ((3 : ℚ) * 2) ≠ 3 * 1 := by
  refine ⟨?_, by norm_num [E0_of], by norm_num⟩
  norm_num [get_temperature_after_delta_excitation, delta_loop, E0_of]

/-- C3 (amended).  For every layer `i` with positive absorption derivative,
the final temperature is the bracketed root on `[init_temp[i], 1e5]` of
`masses[i]*(C(T2) - C(T1,i)) - dalpha_dz[i]*E0*thicknesses[i]` with
`E0 = fluence * areas[1]` — the area of the layer at index 1 (the second
layer), not the first; layers with non-positive absorption keep their initial
temperature. -/
theorem delta_excitation_formula (brentq : (ℚ → ℚ) → ℚ → ℚ → ℚ)
    (sp : SampleProps) (fluence : ℚ) (init_temp : List ℚ) (i : Nat)
    (h1 : sp.int_heat_capacities.length = init_temp.length)
    (h2 : sp.dalpha_dz.length = init_temp.length)
    (h3 : sp.thicknesses.length = init_temp.length)
    (h4 : sp.masses.length = init_temp.length)
    (hi : i < init_temp.length) :
    (get_temperature_after_delta_excitation brentq sp fluence init_temp).1.getD i 0 =
      if sp.dalpha_dz.getD i 0 > 0 then
        brentq (fun T2 => sp.masses.getD i 0 *
            ((sp.int_heat_capacities.getD i id) T2 -
             (sp.int_heat_capacities.getD i id) (init_temp.getD i 0)) -
          sp.dalpha_dz.getD i 0 * (fluence * sp.areas.getD 1 0) * sp.thicknesses.getD i 0)
          (init_temp.getD i 0) 100000
      else init_temp.getD i 0 := by
  have : (get_temperature_after_delta_excitation brentq sp fluence init_temp).1 =
      delta_loop brentq (E0_of fluence sp.areas) sp.int_heat_capacities sp.dalpha_dz
        sp.thicknesses sp.masses init_temp := rfl
  rw [this, delta_loop_getD brentq (E0_of fluence sp.areas) _ _ _ _ _ i h1 h2 h3 h4 hi]
  rfl

/-- Witness for C3's amended theorem at the counterexample input (layer 0). -/
theorem delta_excitation_formula_witness :
    (get_temperature_after_delta_excitation (fun f _ _ => f 0)
      ⟨[1, 1], [fun T => T, fun T => T], [1, 1], [1, 1], [1, 2]⟩ 3 [0, 0]).1.getD 0 0 =
      if (⟨[1, 1], [fun T => T, fun T => T], [1, 1], [1, 1], [1, 2]⟩ :
            SampleProps).dalpha_dz.getD 0 0 > 0 then
        (fun f _ _ => f 0) (fun T2 =>
          (⟨[1, 1], [fun T => T, fun T => T], [1, 1], [1, 1], [1, 2]⟩ :
            SampleProps).masses.getD 0 0 *
            (((⟨[1, 1], [fun T => T, fun T => T], [1, 1], [1, 1], [1, 2]⟩ :
                SampleProps).int_heat_capacities.getD 0 id) T2 -
             ((⟨[1, 1], [fun T => T, fun T => T], [1, 1], [1, 1], [1, 2]⟩ :
                SampleProps).int_heat_capacities.getD 0 id) (([0, 0] : List ℚ).getD 0 0)) -
          (⟨[1, 1], [fun T => T, fun T => T], [1, 1], [1, 1], [1, 2]⟩ :
            SampleProps).dalpha_dz.getD 0 0 *
            (3 * (⟨[1, 1], [fun T => T, fun T => T], [1, 1], [1, 1], [1, 2]⟩ :
              SampleProps).areas.getD 1 0) *
            (⟨[1, 1], [fun T => T, fun T => T], [1, 1], [1, 1], [1, 2]⟩ :
              SampleProps).thicknesses.getD 0 0)
          (([0, 0] : List ℚ).getD 0 0) 100000
      else ([0, 0] : List ℚ).getD 0 0 :=
  delta_excitation_formula (fun f _ _ => f 0)
    ⟨[1, 1], [fun T => T, fun T => T], [1, 1], [1, 1], [1, 2]⟩ 3 [0, 0] 0
    rfl rfl rfl rfl (by norm_num)



/-- The layer loop returns one temperature per layer of the input field. -/
lemma delta_loop_length (brentq : (ℚ → ℚ) → ℚ → ℚ → ℚ) (E0 : ℚ) :
    ∀ (chcs : List (ℚ → ℚ)) (das ths ms Ts : List ℚ),
    (delta_loop brentq E0 chcs das ths ms Ts).length = Ts.length := by
  intro chcs das ths ms Ts
  induction Ts generalizing chcs das ths ms with
  | nil => cases chcs <;> cases das <;> cases ths <;> cases ms <;> rfl
  | cons T Ts ih =>
    cases chcs with
    | nil => rfl
    | cons chc chcs =>
      cases das with
      | nil => rfl
      | cons da das =>
        cases ths with
        | nil => rfl
        | cons th ths =>
          cases ms with
          | nil => rfl
          | cons m ms => simpa [delta_loop] using ih chcs das ths ms

/-- C9 (confirmed).  Whenever the orchestrator's Delta branch is selected —
fluence present, and diffusion disabled or pulse widths summing to zero — the
interval's emitted field is the single all-zero frame over the carried
temperature field: the solver's result is computed and then replaced by
`np.zeros_like(temp)` before anything could be stored. -/
theorem calc_interval_delta_branch_zeros (env : CalcEnv) (prevLast : Option ℚ)
    (nx : Option Intervall) (iv : Intervall) (st : OrchState)
    (hf : iv.fluences.sum > 0)
    (hcase : env.heat_diffusion = false ∨ iv.widths.sum = 0) :
    (calc_interval_temp env prevLast nx iv st).1 =
      [List.replicate st.init_temp.length (0 : ℚ)] := by
  have hdiffusive : ¬(env.heat_diffusion ∧ iv.grid.length > 2 ∧
      ((iv.fluences.sum = 0 ∧ temp_gradient_of (st.temp_map.getLastD []) ≠ 0) ∨
       (iv.fluences.sum > 0 ∧ iv.widths.sum > 0))) := by
    rintro ⟨hhd, -, hor⟩
    rcases hcase with hc | hc
    · rw [hc] at hhd
      exact Bool.false_ne_true hhd
    · rcases hor with ⟨h0, -⟩ | ⟨-, hpos⟩
      · rw [h0] at hf
        exact lt_irrefl 0 hf
      · rw [hc] at hpos
        exact lt_irrefl 0 hpos
  have hdelta : iv.fluences.sum > 0 ∧
      (¬env.heat_diffusion ∨ (env.heat_diffusion ∧ iv.widths.sum = 0)) := by
    refine ⟨hf, ?_⟩
    rcases hcase with hc | hc
    · exact Or.inl (by simp [hc])
    · by_cases hb : env.heat_diffusion
      · exact Or.inr ⟨hb, hc⟩
      · exact Or.inl hb
  rw [calc_interval_temp.eq_def, if_neg hdiffusive, if_pos hdelta]
  have hlen : ((get_temperature_after_delta_excitation env.brentq env.sp
      (iv.fluences.headD 0) st.init_temp).1).length = st.init_temp.length :=
    delta_loop_length env.brentq _ _ _ _ _ st.init_temp
  have hmap : ∀ (t : List ℚ), t.map (fun _ => (0 : ℚ)) = List.replicate t.length 0 := by
    intro t
    induction t with
    | nil => rfl
    | cons a t ih => simp [ih, List.replicate_succ]
  show ([(get_temperature_after_delta_excitation env.brentq env.sp
      (iv.fluences.headD 0) st.init_temp).1.map fun _ => (0 : ℚ)], ([] : List ℚ)).1 =
    [List.replicate st.init_temp.length (0 : ℚ)]
  simp only [hmap, hlen]

/-- Witness for C9: a single delta pulse (fluence 1, width 0) with diffusion
disabled emits the one all-zero frame over a one-layer field. -/
theorem calc_interval_delta_branch_zeros_witness :
    (calc_interval_temp
      ⟨false, ⟨[1], [0], [0]⟩, ⟨[1], [fun T => T], [1], [1], [1, 1]⟩,
        fun _ _ _ => 400, fun _ _ _ _ _ => []⟩
      none none ⟨[0], [0], [0], [1]⟩ ⟨[300], [[300]]⟩).1 =
      [List.replicate ([(300 : ℚ)]).length (0 : ℚ)] :=
  calc_interval_delta_branch_zeros
    ⟨false, ⟨[1], [0], [0]⟩, ⟨[1], [fun T => T], [1], [1], [1, 1]⟩,
      fun _ _ _ => 400, fun _ _ _ _ _ => []⟩
    none none ⟨[0], [0], [0], [1]⟩ ⟨[300], [[300]]⟩
    (by norm_num) (Or.inl rfl)

/-- C4 (code-bug evaluation).  A diffusive interval with grid `[0, 1, 2]`
(three points), a previous interval ending at time `5` (so one boundary point
is borrowed at the front, `start = 1`) and no following delta interval
(`stop = 0`, nothing borrowed at the back).  The integrator returns one frame
per point of the extended grid `[5, 0, 1, 2]`.  The claim predicts the three
frames of the interval's own grid are kept; the slice `temp[start:-1-stop]`
= `temp[1:-1]` keeps only two — it always drops one extra trailing frame
beyond the borrowed points. -/
theorem diffusion_trim_drops_extra_frame :
    (calc_interval_temp
      ⟨true, ⟨[], [], []⟩, ⟨[], [], [], [], []⟩, fun _ _ _ => 0,
        fun _ _ _ _ _ => [[1], [2], [3], [4]]⟩
      (some 5) none ⟨[0, 1, 2], [], [], []⟩ ⟨[300], [[300]]⟩).1 = [[2], [3]] ∧
    ([[2], [3]] : List (List ℚ)).length = 2 ∧
    (⟨[0, 1, 2], [], [], []⟩ : Intervall).grid.length = 3 := by
  refine ⟨?_, rfl, rfl⟩
  norm_num [calc_interval_temp, temp_gradient_of, pySliceTrim]

/-- The interval loop never extends the temperature map: the concatenation of
the computed frames is commented out in the source. -/
lemma calc_loop_temp_map (env : CalcEnv) :
    ∀ (ivs : List Intervall) (prevLast : Option ℚ) (st : OrchState),
    (calc_loop env prevLast st ivs).temp_map = st.temp_map := by
  intro ivs
  induction ivs with
  | nil => intro prevLast st; rfl
  | cons iv rest ih => intro prevLast st; exact ih _ _

/-- C1 (code-bug evaluation).  Whenever `calc_temp_map` returns, the returned
temperature map and delta map are empty — regardless of the requested delays —
because the frame concatenation is commented out (heat.py 530) and the seed
frame, the only one ever stored, is deleted at the end (line 565).  The claim
(and spec invariant) require one frame per requested delay instead. -/
theorem calc_temp_map_returns_empty_map (env : CalcEnv) (delays : List ℚ)
    (init_temp0 : List ℚ) (r : List (List ℚ) × List (List ℚ) × List Intervall)
    (h : calc_temp_map env delays init_temp0 = .ok r) :
    r.1 = [] ∧ r.2.1 = [] := by
  simp only [calc_temp_map, Bind.bind, Except.bind] at h
  split at h
  · exact absurd h (by simp)
  · injection h with h
    subst h
    simp [calc_loop_temp_map, npDiff0]

/-- Witness for C1: two requested delays around a single delta pulse; the
returned map and delta map are both empty while two frames were requested. -/
theorem calc_temp_map_returns_empty_map_witness :
    (([], [],
       [⟨[-1], [], [], []⟩, ⟨[0], [0], [0], [1]⟩, ⟨[1], [], [], []⟩]) :
      List (List ℚ) × List (List ℚ) × List Intervall).1 = [] ∧
    (([], [],
       [⟨[-1], [], [], []⟩, ⟨[0], [0], [0], [1]⟩, ⟨[1], [], [], []⟩]) :
      List (List ℚ) × List (List ℚ) × List Intervall).2.1 = [] :=
  calc_temp_map_returns_empty_map
    ⟨false, ⟨[1], [0], [0]⟩, ⟨[1], [fun T => T], [1], [1], [1, 1]⟩,
      fun _ _ _ => 400, fun _ _ _ _ _ => []⟩
    [-1, 1] [300]
    ([], [], [⟨[-1], [], [], []⟩, ⟨[0], [0], [0], [1]⟩, ⟨[1], [], [], []⟩])
    (by norm_num [calc_temp_map, check_excitation_pure, mkPumps, mergeExcitations,
      mergeLoop, window, groupIntervall, npMin, intp, quiet, interleaveQuiet,
      Bind.bind, Except.bind, calc_loop, calc_interval_temp, temp_gradient_of,
      get_temperature_after_delta_excitation, delta_loop, E0_of, npDiff0])



lemma map_const_zero (t : List ℚ) :
    t.map (fun _ => (0 : ℚ)) = List.replicate t.length 0 := by
  induction t with
  | nil => rfl
  | cons a t ih => simp [ih, List.replicate_succ]

lemma filter_lt_split (l : List ℚ) (a b : ℚ) (hab : a ≤ b) :
    (l.filter fun d => d < b).length =
    (l.filter fun d => d < a).length + (l.filter fun d => a ≤ d ∧ d < b).length := by
  induction l with
  | nil => rfl
  | cons x l ih =>
    by_cases h1 : x < a
    · have h2 : x < b := lt_of_lt_of_le h1 hab
      have h3 : ¬(a ≤ x ∧ x < b) := fun hc => absurd h1 (not_lt.mpr hc.1)
      simp [List.filter_cons, h1, h2, h3, ih]
      omega
    · by_cases h2 : x < b
      · have h3 : a ≤ x ∧ x < b := ⟨not_lt.mp h1, h2⟩
        simp [List.filter_cons, h1, h2, h3, ih]
        omega
      · have h3 : ¬(a ≤ x ∧ x < b) := fun hc => absurd hc.2 h2
        simp [List.filter_cons, h1, h2, h3, ih]

lemma filter_le_split (l : List ℚ) (a b : ℚ) (hab : a ≤ b) :
    (l.filter fun d => d ≤ b).length =
    (l.filter fun d => d < a).length + (l.filter fun d => a ≤ d ∧ d ≤ b).length := by
  induction l with
  | nil => rfl
  | cons x l ih =>
    by_cases h1 : x < a
    · have h2 : x ≤ b := le_trans (le_of_lt h1) hab
      have h3 : ¬(a ≤ x ∧ x ≤ b) := fun hc => absurd h1 (not_lt.mpr hc.1)
      simp [List.filter_cons, h1, h2, h3, ih]
      omega
    · by_cases h2 : x ≤ b
      · have h3 : a ≤ x ∧ x ≤ b := ⟨not_lt.mp h1, h2⟩
        simp [List.filter_cons, h1, h2, h3, ih]
        omega
      · have h3 : ¬(a ≤ x ∧ x ≤ b) := fun hc => absurd hc.2 h2
        simp [List.filter_cons, h1, h2, h3, ih]



/-- Writing `vals` at the counter position into a zero-padded array appends it
to the prefix and re-pads with zeros. -/
lemma writeSeg_zeros (P vals : List ℚ) (n : Nat) :
    writeSeg (P ++ List.replicate (n - P.length) 0) P.length vals =
    (P ++ vals) ++ List.replicate (n - (P ++ vals).length) 0 := by
  rw [writeSeg, List.take_left, List.drop_append, List.drop_replicate]
  simp only [List.append_assoc, List.length_append]
  congr 3
  omega

/-- A zero-padded array splits after any further `m` zeros of the padding. -/
lemma zeros_split (P : List ℚ) (n m : Nat) (h : P.length + m ≤ n) :
    P ++ List.replicate (n - P.length) (0 : ℚ) =
    (P ++ List.replicate m (0 : ℚ)) ++
      List.replicate (n - (P ++ List.replicate m (0 : ℚ)).length) 0 := by
  simp only [List.append_assoc, ← List.replicate_add, List.length_append,
    List.length_replicate]
  congr 2
  omega

/-- The write-at-counter loop of `get_absorption_profile` refines the spec's
per-layer concatenation: starting from a prefix `P` of already-written values
(with the counter at `P.length`) and zeros beyond, the loop produces `P`
followed by the spec profile of the remaining layers, followed by zeros for
the mesh points past the last interface. -/
lemma absorb_go_eq_spec (ex : ℚ → ℚ) (mesh : List ℚ) :
    ∀ (layers : List Layer) (I0 iface : ℚ) (P : List ℚ),
    (∀ l ∈ layers, 0 ≤ l.thickness) →
    P.length = (mesh.filter fun d => d < iface).length →
    absorb_go ex mesh layers I0 iface P.length
      (P ++ List.replicate (mesh.length - P.length) 0) =
    P ++ absorption_profile_spec ex mesh layers I0 iface ++
      List.replicate (mesh.length - P.length -
        (absorption_profile_spec ex mesh layers I0 iface).length) 0 := by
  intro layers
  induction layers with
  | nil =>
    intro I0 iface P hth hcount
    simp [absorb_go, absorption_profile_spec]
  | cons l rest ih =>
    intro I0 iface P hth hcount
    have hl : 0 ≤ l.thickness := hth l (by simp)
    have hab : iface ≤ iface + l.thickness := le_add_of_nonneg_right hl
    cases rest with
    | nil =>
      have hkm : P.length +
          (mesh.filter fun d => iface ≤ d ∧ d ≤ iface + l.thickness).length ≤
          mesh.length := by
        have hs := filter_le_split mesh iface (iface + l.thickness) hab
        have hb := List.length_filter_le
          (fun d => decide (d ≤ iface + l.thickness)) mesh
        rw [hcount]
        omega
      cases hdepth : l.opt_pen_depth with
      | none =>
        simp only [absorb_go, absorption_profile_spec, hdepth]
        rw [map_const_zero]
        simp only [List.append_assoc, ← List.replicate_add, List.length_replicate]
        congr 2
        omega
      | some ζ =>
        simp only [absorb_go, absorption_profile_spec, hdepth]
        rw [writeSeg_zeros]
        simp only [List.append_assoc, List.length_append, List.length_map]
        congr 3
        omega
    | cons l2 rest2 =>
      have hrest : ∀ l' ∈ l2 :: rest2, 0 ≤ l'.thickness :=
        fun l' h => hth l' (by simp [h])
      have hsplit := filter_lt_split mesh iface (iface + l.thickness) hab
      have hbnd := List.length_filter_le
        (fun d => decide (d < iface + l.thickness)) mesh
      have hkm : P.length +
          (mesh.filter fun d => iface ≤ d ∧ d < iface + l.thickness).length ≤
          mesh.length := by
        rw [hcount]
        omega
      cases hdepth : l.opt_pen_depth with
      | none =>
        simp only [absorb_go, absorption_profile_spec, hdepth]
        rw [map_const_zero,
          zeros_split P mesh.length
            (mesh.filter fun d => iface ≤ d ∧ d < iface + l.thickness).length hkm]
        have hplen : P.length +
            (mesh.filter fun d => iface ≤ d ∧ d < iface + l.thickness).length =
            (P ++ List.replicate
              (mesh.filter fun d =>
                iface ≤ d ∧ d < iface + l.thickness).length (0 : ℚ)).length := by
          simp
        have hcnt2 : (P ++ List.replicate
            (mesh.filter fun d =>
              iface ≤ d ∧ d < iface + l.thickness).length (0 : ℚ)).length =
            (mesh.filter fun d => d < iface + l.thickness).length := by
          simp only [List.length_append, List.length_replicate]
          omega
        rw [hplen, ih I0 (iface + l.thickness) _ hrest hcnt2]
        simp only [List.append_assoc, List.length_append, List.length_replicate]
        congr 4
        omega
      | some ζ =>
        simp only [absorb_go, absorption_profile_spec, hdepth]
        rw [writeSeg_zeros]
        have hplen : P.length +
            (mesh.filter fun d => iface ≤ d ∧ d < iface + l.thickness).length =
            (P ++ (mesh.filter fun d => iface ≤ d ∧ d < iface + l.thickness).map
              (fun d => I0 / ζ * ex (-(d - iface) / ζ))).length := by
          simp
        have hcnt2 : (P ++ (mesh.filter fun d => iface ≤ d ∧ d < iface + l.thickness).map
            (fun d => I0 / ζ * ex (-(d - iface) / ζ))).length =
            (mesh.filter fun d => d < iface + l.thickness).length := by
          simp only [List.length_append, List.length_map]
          omega
        rw [hplen, ih (I0 * ex (-l.thickness / ζ)) (iface + l.thickness) _
          hrest hcnt2]
        simp only [List.append_assoc, List.length_append, List.length_map,
          List.length_replicate]
        congr 4
        omega



/-- C8 (confirmed).  `get_absorption_profile` computes the Lambert-Beer
absorption profile as specified, for any `exp`-stand-in `ex`:
(1) a single non-absorbing (infinite penetration depth) layer yields the
all-zero profile; (2) a single absorbing layer of depth `ζ`, with all mesh
points inside the layer, yields `ex(-z/ζ)/ζ` at each mesh point `z`; (3) in
general the profile is the per-layer concatenation of
`I0/ζ·ex(-(z-interface)/ζ)` blocks (zero blocks for non-absorbing layers)
with `I0` multiplied by `ex(-thickness/ζ)` after each absorbing layer and
left unchanged by non-absorbing ones, padded with zeros for mesh points past
the last interface. -/
theorem absorption_profile_correct (ex : ℚ → ℚ) :
    (∀ (t : ℚ) (mesh : List ℚ),
      get_absorption_profile ex [⟨t, none⟩] mesh = List.replicate mesh.length 0) ∧
    (∀ (t ζ : ℚ) (mesh : List ℚ), (∀ z ∈ mesh, 0 ≤ z ∧ z ≤ t) →
      get_absorption_profile ex [⟨t, some ζ⟩] mesh =
        mesh.map fun z => ex (-z / ζ) / ζ) ∧
    (∀ (layers : List Layer) (mesh : List ℚ),
      (∀ l ∈ layers, 0 ≤ l.thickness) → (∀ z ∈ mesh, 0 ≤ z) →
      get_absorption_profile ex layers mesh =
        absorption_profile_spec ex mesh layers 1 0 ++
        List.replicate (mesh.length -
          (absorption_profile_spec ex mesh layers 1 0).length) 0) := by
  refine ⟨?_, ?_, ?_⟩
  · intro t mesh
    simp [get_absorption_profile, absorb_go]
  · intro t ζ mesh hz
    have hfil : (mesh.filter fun d => 0 ≤ d ∧ d ≤ 0 + t) = mesh := by
      refine List.filter_eq_self.mpr ?_
      intro a ha
      have := hz a ha
      simp only [zero_add, decide_eq_true_eq]
      exact this
    simp only [get_absorption_profile, absorb_go, hfil]
    rw [writeSeg]
    simp only [List.take_zero, List.nil_append, List.length_map, Nat.zero_add,
      List.drop_replicate, Nat.sub_self, List.replicate_zero, List.append_nil]
    refine List.map_eq_map_iff.mpr ?_
    intro a ha
    rw [sub_zero, one_div_mul_eq_div]
  · intro layers mesh hth hz
    have hfil : (mesh.filter fun d => d < (0 : ℚ)) = [] := by
      refine List.filter_eq_nil_iff.mpr ?_
      intro a ha
      simpa using not_lt.mpr (hz a ha)
    have h := absorb_go_eq_spec ex mesh layers 1 0 [] hth (by simp [hfil])
    simpa [get_absorption_profile] using h

/-- Witness for C8 with `ex = fun q => 1 + q`: a single infinite layer over
mesh `[0, 1]`, a single finite layer of thickness 2 and depth 3, and a
two-layer stack (absorbing depth 2, then non-absorbing). -/
theorem absorption_profile_correct_witness :
    get_absorption_profile (fun q => 1 + q) [⟨5, none⟩] [0, 1] =
      List.replicate ([(0 : ℚ), 1]).length 0 ∧
    get_absorption_profile (fun q => 1 + q) [⟨2, some 3⟩] [0, 1] =
      [(0 : ℚ), 1].map (fun z => (fun q => (1 : ℚ) + q) (-z / 3) / 3) ∧
    get_absorption_profile (fun q => 1 + q) [⟨1, some 2⟩, ⟨1, none⟩] [0, 1] =
      absorption_profile_spec (fun q => 1 + q) [0, 1] [⟨1, some 2⟩, ⟨1, none⟩] 1 0 ++
      List.replicate (([(0 : ℚ), 1]).length -
        (absorption_profile_spec (fun q => 1 + q) [0, 1]
          [⟨1, some 2⟩, ⟨1, none⟩] 1 0).length) 0 :=
  ⟨(absorption_profile_correct (fun q => 1 + q)).1 5 [0, 1],
   (absorption_profile_correct (fun q => 1 + q)).2.1 2 3 [0, 1]
     (by intro z hs; rcases List.mem_cons.mp hs with rfl | hs2
         · norm_num
         · simp only [List.mem_singleton] at hs2; subst hs2; norm_num),
   (absorption_profile_correct (fun q => 1 + q)).2.2 [⟨1, some 2⟩, ⟨1, none⟩] [0, 1]
     (by intro l hl; rcases List.mem_cons.mp hl with rfl | hl2
         · norm_num
         · simp only [List.mem_singleton] at hl2; subst hl2; norm_num)
     (by intro z hs; rcases List.mem_cons.mp hs with rfl | hs2
         · norm_num
         · simp only [List.mem_singleton] at hs2; subst hs2; norm_num)⟩


end UDKM
